import Mathlib

set_option maxRecDepth 8000

/-!
Verification of the fits-header repository.

This file gives a shallow embedding of the header-card codec
(src/lib/header.mjs), the HDU layout engine (src/lib/hdu.mjs) and the
file-level validation and orchestration (src/lib/file.mjs), and proves or
refutes the frozen claims about them.

Modelling conventions:
  - byte buffers and JS strings are `List Char` (the encoding is ASCII);
  - JS `undefined` is `Option.none`;
  - JS exceptions (`throw`) are `Except.error`;
  - JS numbers: card values parsed by `Number(...)` cover the
    optionally-signed integer and fixed-point decimal literals (the
    numeric forms the codec claims exercise; exponential notation is not
    modelled).  Integer values are `Int` (float64-rounded at parse by
    `flInt`), non-integral values are exact decimals `.dec m f` denoting
    `m / 10 ^ f` (faithful to the stored double and its `toString`
    rendering on the at-most-15-significant-digit range the claims'
    hypotheses enforce), and the JS `NaN` result is a dedicated variant.
    The HDU size arithmetic divides by 8 once (exact) and then multiplies
    float64s: the size is carried as the exact integer count of eighths
    of a byte and every multiplication result is rounded to 53
    significant bits by `roundFloat`, the IEEE double rounding, which is
    lossy above `2 ^ 53` exactly as in the source.
-/

namespace Fits

abbrev Str := List Char

/-! Constants from src/lib/constants.mjs. -/

def keySize : Nat := 8
def valueSize : Nat := 20
def headerSize : Nat := 80
def blockSize : Nat := 2880

/-- The apostrophe character (source constant `QUOTE`). -/
def QUOTE : Char := Char.ofNat 39

/-- The character `/` (source constant `SLASH`). -/
def SLASH : Char := Char.ofNat 47

/-- The space character. -/
def SP : Char := Char.ofNat 32

/-- The character `[`. -/
def LBRACK : Char := Char.ofNat 91

/-- The character `]`. -/
def RBRACK : Char := Char.ofNat 93

/-- The character `T`. -/
def CHT : Char := Char.ofNat 84

/-- The character `F`. -/
def CHF : Char := Char.ofNat 70

/-- The character `-`. -/
def DASH : Char := Char.ofNat 45

/-- The character `+`. -/
def PLUS : Char := Char.ofNat 43

/-- `.` -/
def DOT : Char := Char.ofNat 46

/-! Models of the JS string primitives used by the source. -/

/-- JS whitespace (the members that can occur in ASCII card data). -/
def isWS (c : Char) : Bool :=
  c.toNat = 32 || c.toNat = 9 || c.toNat = 10 || c.toNat = 11 ||
  c.toNat = 12 || c.toNat = 13

/-- JS `String.prototype.trimStart`. -/
def jsTrimStart (s : Str) : Str := s.dropWhile isWS

/-- JS `String.prototype.trimEnd`. -/
def jsTrimEnd (s : Str) : Str := (s.reverse.dropWhile isWS).reverse

/-- JS `String.prototype.trim`. -/
def jsTrim (s : Str) : Str := jsTrimStart (jsTrimEnd s)

/-- JS `String.prototype.padEnd` with the space character. -/
def padEnd (s : Str) (n : Nat) : Str := s ++ List.replicate (n - s.length) SP

/-- JS `String.prototype.padStart` with the space character. -/
def padStart (s : Str) (n : Nat) : Str := List.replicate (n - s.length) SP ++ s

/-- JS two-argument `String.prototype.substring` (clamps both indices to the
string length and swaps them when given out of order). -/
def jsSubstring (s : Str) (a b : Nat) : Str :=
  let a2 := min a s.length
  let b2 := min b s.length
  (s.drop (min a2 b2)).take (max a2 b2 - min a2 b2)

/-- First index at which the predicate holds. -/
def findIdxQ (p : Char → Bool) : Str → Option Nat
  | [] => none
  | c :: rest => if p c then some 0 else (findIdxQ p rest).map (fun i => i + 1)

/-- JS `String.prototype.indexOf` for a single character with a start
position; `none` models the JS result `-1`. -/
def indexOfFrom (s : Str) (c : Char) (start : Nat) : Option Nat :=
  (findIdxQ (fun x => x = c) (s.drop start)).map (fun i => start + i)

/-! Decimal integer literals: the value notation exercised by the claims. -/

def digitVal (c : Char) : Option Nat :=
  if 48 ≤ c.toNat ∧ c.toNat ≤ 57 then some (c.toNat - 48) else none

def parseNatAux : Str → Nat → Option Nat
  | [], acc => some acc
  | c :: rest, acc =>
    match digitVal c with
    | some d => parseNatAux rest (acc * 10 + d)
    | none => none

def parseNatDigits (s : Str) : Option Nat :=
  if s.isEmpty then none else parseNatAux s 0

/-- Strip trailing zero digits from the fractional part: the decimal
`(m, f)` (denoting `m / 10 ^ f`) with `m % 10 = 0` denotes the same
number as `(m / 10, f - 1)`, and JS number values carry no trailing
fractional zeros (`Number("1.50") === Number("1.5")`).  Structured on the
fraction length so the kernel can evaluate it. -/
def decNorm : Nat → Nat → Nat × Nat
  | 0, m => (m, 0)
  | f + 1, m => if m % 10 = 0 then decNorm f (m / 10) else (m, f + 1)

/-- Unsigned decimal literal, optionally with one `.` and a fractional
digit run on either side of it (`1.5`, `1.`, `.5`, `12`), returning the
normalized pair `(m, f)` denoting `m / 10 ^ f`. -/
def parseDecU (s : Str) : Option (Nat × Nat) :=
  match findIdxQ (fun c => c = DOT) s with
  | none => (parseNatDigits s).map (fun (n : Nat) => (n, 0))
  | some i =>
    let ip := s.take i
    let fp := s.drop (i + 1)
    if (findIdxQ (fun c => c = DOT) fp).isSome then none
    else if ip.isEmpty && fp.isEmpty then none
    else
      match parseNatAux ip 0, parseNatAux fp 0 with
      | some a, some b => some (decNorm fp.length (a * 10 ^ fp.length + b))
      | _, _ => none

/-- Signed decimal literal (integer or fixed-point), whole string
consumed: the fragment of the `Number(...)` grammar the codec claims
exercise.  Exponential notation is not modelled (no encoded card in the
claims' ranges produces it). -/
def parseDecLit (s : Str) : Option (Int × Nat) :=
  match s with
  | [] => none
  | c :: rest =>
    if c = DASH then (parseDecU rest).map (fun (p : Nat × Nat) => (-(p.1 : Int), p.2))
    else if c = PLUS then (parseDecU rest).map (fun (p : Nat × Nat) => ((p.1 : Int), p.2))
    else (parseDecU s).map (fun (p : Nat × Nat) => ((p.1 : Int), p.2))

def digitChar (d : Nat) : Char := Char.ofNat (48 + d)

/-- Digit-producing loop for `natToStr`, structured on a fuel bound so the
kernel can evaluate it (any fuel above the digit count gives the same
result). -/
def natToStrAux : Nat → Nat → Str
  | 0, _ => []
  | fuel + 1, n =>
    if n < 10 then [digitChar n]
    else natToStrAux fuel (n / 10) ++ [digitChar (n % 10)]

/-- Decimal rendering of a natural number (JS `Number.prototype.toString`). -/
def natToStr (n : Nat) : Str := natToStrAux (n + 1) n

/-- Decimal rendering of an integer (JS `Number.prototype.toString`,
which prints the shortest decimal that reads back to the same double:
for an integer-valued double of magnitude below `2 ^ 53` that is exactly
this decimal expansion; larger integers print fewer significant digits
in JS and are outside every claim's range). -/
def intToStr (i : Int) : Str :=
  if i < 0 then DASH :: natToStr i.natAbs else natToStr i.natAbs

/-- Decimal rendering of the non-integral number `m / 10 ^ f` (JS
`Number.prototype.toString` on a fractional double): sign, integer part,
`.`, fractional digits zero-padded on the left.  JS prints the shortest
decimal that reads back to the same double, which is exactly this
expansion whenever `m` has at most 15 significant digits and the
magnitude is at least `10 ^ -6` (below that JS switches to exponential
notation); the claims' hypotheses stay in that range. -/
def decToStr (m : Int) (f : Nat) : Str :=
  let a := m.natAbs
  let ip := natToStr (a / 10 ^ f)
  let fpRaw := natToStr (a % 10 ^ f)
  let fp := List.replicate (f - fpRaw.length) (digitChar 0) ++ fpRaw
  (if m < 0 then [DASH] else []) ++ ip ++ DOT :: fp

/-- Binary digit count, on a structural fuel (any fuel of at least `n`
gives the bit length of `n`), so the kernel can evaluate it. -/
def bitsAux : Nat → Nat → Nat
  | 0, _ => 0
  | f + 1, n => if n = 0 then 0 else bitsAux f (n / 2) + 1

def nbits (n : Nat) : Nat := bitsAux n n

/-- Round a nonnegative integer significand to IEEE double precision: 53
significant bits, round half to even.  Scaling by a power of two commutes
with significand rounding, so applying this to the integer numerator of a
dyadic value (the HDU size is carried as the exact integer `8 * size`)
is exactly the float64 rounding of that value.  Exponent overflow to
Infinity (at `2 ^ 1024`) is outside every claim's range and not
modelled. -/
def roundFloat (n : Nat) : Nat :=
  if n < 2 ^ 53 then n
  else
    let k := nbits n - 53
    let q := n / 2 ^ k
    let r := n % 2 ^ k
    let half := 2 ^ (k - 1)
    let q2 :=
      if half < r then q + 1
      else if r < half then q
      else if q % 2 = 0 then q else q + 1
    q2 * 2 ^ k

/-- Float64 rounding of a signed integer value (IEEE rounding is
sign-symmetric). -/
def flInt (i : Int) : Int :=
  if i < 0 then -(roundFloat i.natAbs : Int) else (roundFloat i.natAbs : Int)

/-! JS primitive values as stored in a Value card. -/

inductive JSValue where
  | bool (b : Bool)
  | num (n : Int)
  | dec (m : Int) (f : Nat)
  | str (s : Str)
  | nan
  deriving DecidableEq, Repr

/-- JS `Number(string)` restricted to the integer literals of this model:
whitespace is trimmed, the empty remainder converts to `0`, a signed decimal
integer literal converts to its value, anything else to `NaN`. -/
def jsNumber (s : Str) : JSValue :=
  let t := jsTrim s
  if t.isEmpty then .num 0
  else
    match parseDecLit t with
    | some (m, 0) => .num (flInt m)
    | some (m, f + 1) => .dec m (f + 1)
    | none => .nan

/-! Quote escaping. -/

/-- The regex replace `arg.replace(/'/g, "''")` used when encoding. -/
def escapeQuotes : Str → Str
  | [] => []
  | c :: rest =>
    if c = QUOTE then QUOTE :: QUOTE :: escapeQuotes rest
    else c :: escapeQuotes rest

/-- The regex replace `value.replace(/''/g, QUOTE)` used when decoding:
left-to-right, non-overlapping replacement of doubled apostrophes. -/
def unescapeQuotes : Str → Str
  | [] => []
  | [c] => [c]
  | a :: b :: rest =>
    if a = QUOTE && b = QUOTE then QUOTE :: unescapeQuotes rest
    else a :: unescapeQuotes (b :: rest)

/-- The scanning loop of `ValueHeader.#parse_string`: walks the 70 bytes
after the value marker tracking the inside-quotes state, stopping at the
first `/` seen outside quotes.  Returns the final offset together with the
inside-quotes state at termination. -/
def scanValue : Str → Bool → Nat × Bool
  | [], inside => (0, inside)
  | c :: rest, inside =>
    if c = QUOTE then
      let r := scanValue rest (!inside)
      (r.1 + 1, r.2)
    else if c = SLASH && !inside then (0, inside)
    else
      let r := scanValue rest inside
      (r.1 + 1, r.2)

/-! The card data type: the closed Raw / Comment / Value variant set of
src/lib/header.mjs.  Each card carries its 80-byte backing buffer and its
`#modified` flag; Value cards additionally carry the `#dirty` flag and the
parsed `#value` / `#units` / `#comment` fields (`#svalue` is derived data,
recomputed by `#update` before every use, so it is not stored). -/

inductive Header where
  | raw (buf : Str) (mod : Bool)
  | cmt (buf : Str) (mod : Bool)
  | val (buf : Str) (mod : Bool) (dirty : Bool) (v : JSValue)
        (units : Option Str) (comment : Option Str)
  deriving DecidableEq, Repr

def Header.buf : Header → Str
  | .raw b _ => b
  | .cmt b _ => b
  | .val b _ _ _ _ _ => b

/-- The `keyword` getter: `substring(0, keySize).trimEnd()`. -/
def Header.keyword (h : Header) : Str := jsTrimEnd (h.buf.take keySize)

/-- The `modified` getter (`#dirty || super.modified` on Value cards). -/
def Header.modifiedF : Header → Bool
  | .raw _ m => m
  | .cmt _ m => m
  | .val _ m d _ _ _ => d || m

/-- The `value` getter; `none` models `undefined` on non-Value cards. -/
def Header.valueF : Header → Option JSValue
  | .val _ _ _ v _ _ => some v
  | _ => none

def Header.unitsF : Header → Option Str
  | .val _ _ _ _ u _ => u
  | _ => none

def Header.commentF : Header → Option Str
  | .val _ _ _ _ _ c => c
  | _ => none

/-- `ValueHeader.#parse_comment`: splits trailing commentary into an
optional units field and an optional comment. -/
def parse_comment (s : Str) : Except String (Option Str × Option Str) :=
  let t := jsTrim s
  if t.head? = some SLASH then
    let t2 := jsTrimStart (t.drop 1)
    if t2.head? = some LBRACK then
      match indexOfFrom t2 RBRACK 1 with
      | some i =>
        if 1 < i then
          .ok (some (jsSubstring t2 1 i), some (jsTrimStart (t2.drop (i + 1))))
        else .error "Malformed units field in comment"
      | none => .error "Malformed units field in comment"
    else .ok (none, some (jsTrimStart t2))
  else .ok (none, none)

/-- `ValueHeader.#parse_string`: parses a quoted text value plus trailing
commentary from bytes 10..80 of the card. -/
def parse_string (buf : Str) : Except String (JSValue × Option Str × Option Str) :=
  let data := jsSubstring buf 10 headerSize
  let r := scanValue data false
  let offset := r.1
  let inside := r.2
  let value := jsTrimEnd (data.take offset)
  if inside || ¬ value.head? = some QUOTE || ¬ value.getLast? = some QUOTE then
    .error "string value parser error"
  else
    let comment := data.drop offset
    let v := jsTrimEnd (unescapeQuotes (jsSubstring value 1 (value.length - 1)))
    match parse_comment comment with
    | .ok (u, c) => .ok (.str v, u, c)
    | .error e => .error e

/-- `ValueHeader.#parse`: parses the value field and commentary of a card
whose bytes 8..10 are the `= ` marker. -/
def parseValue (buf : Str) : Except String (JSValue × Option Str × Option Str) :=
  let content := jsSubstring buf (keySize + 2) headerSize
  if (jsTrimStart content).head? = some QUOTE then
    parse_string buf
  else
    let value := jsTrimStart (jsSubstring content 0 valueSize)
    let v : JSValue :=
      if value = [CHT] then .bool true
      else if value = [CHF] then .bool false
      else jsNumber value
    let comment := jsSubstring buf 30 headerSize
    match parse_comment comment with
    | .ok (u, c) => .ok (v, u, c)
    | .error e => .error e

/-- The `has_value` getter: bytes 8..10 equal `= `. -/
def Header.has_value (buf : Str) : Bool :=
  jsSubstring buf keySize (keySize + 2) = "= ".toList

/-- `Header.from_buffer`: decode one 80-byte record into the matching card
variant.  A freshly decoded card has `#modified = false` and, on Value
cards, `#dirty = false`. -/
def Header.from_buffer (buf : Str) : Except String Header :=
  let keyword := jsTrimEnd (buf.take keySize)
  if keyword = "COMMENT".toList || keyword = "HISTORY".toList then
    .ok (.cmt buf false)
  else if Header.has_value buf then
    match parseValue buf with
    | .ok (v, u, c) => .ok (.val buf false false v u c)
    | .error e => .error e
  else .ok (.raw buf false)

deriving instance DecidableEq for Except

/-! Encoding: the `ValueHeader` construction and lazy re-rendering path. -/

/-- `ValueHeader.#update_svalue`: format the primitive value as the padded
20-byte value field (`#svalue`).  `NaN` stringifies to `NaN` because JS
classifies it as a number. -/
def update_svalue : JSValue → Str
  | .bool b => padStart (if b then [CHT] else [CHF]) valueSize
  | .num n => padStart (intToStr n) valueSize
  | .dec m f => padStart (decToStr m f) valueSize
  | .nan => padStart "NaN".toList valueSize
  | .str s => padEnd (QUOTE :: (padEnd (escapeQuotes s) 8 ++ [QUOTE])) valueSize

/-- The commentary appended by `ValueHeader.#update` after the value field:
a ` / ` marker when units or comment are present, then `[units] `, then the
comment. -/
def encodeCommentary (u c : Option Str) : Str :=
  (if u.isSome || c.isSome then " / ".toList else []) ++
  (match u with
   | some us => LBRACK :: (us ++ (RBRACK :: [SP]))
   | none => []) ++
  (match c with
   | some cs => cs
   | none => [])

/-- `Buffer.write(data, offset, ...)` for in-range writes: overwrite
`data.length` bytes of `buf` starting at `off`.  Every `_write` in the
source stays inside the 80-byte buffer. -/
def bufWrite (buf : Str) (data : Str) (off : Nat) : Str :=
  buf.take off ++ data ++ buf.drop (off + data.length)

/-- The string `'= ' + svalue + commentary` built by `ValueHeader.#update`
before padding and truncation. -/
def renderedField (v : JSValue) (u c : Option Str) : Str :=
  "= ".toList ++ update_svalue v ++ encodeCommentary u c

/-- `ValueHeader.#update`: re-render the 72 bytes after the keyword from
the current value, units and comment fields (padded then truncated to
exactly 72 bytes, written at offset 8). -/
def updateVal (buf : Str) (v : JSValue) (u c : Option Str) : Str :=
  let maxlen := headerSize - keySize
  let s := (padEnd (renderedField v u c) maxlen).take maxlen
  bufWrite buf s keySize

/-- `toString()`: the 80-character rendering.  On a dirty Value card this
first runs `#update` (which clears `#dirty` and, through `_write`, sets
`#modified`); the result is the fixed rendering plus the card as mutated by
the memoization. -/
def Header.render : Header → Str × Header
  | .raw b m => (b.take headerSize, .raw b m)
  | .cmt b m => (b.take headerSize, .cmt b m)
  | .val b m d v u c =>
    if d then
      let b2 := updateVal b v u c
      (b2.take headerSize, .val b2 true false v u c)
    else (b.take headerSize, .val b m d v u c)

/-- `RawHeader.#set_keyword`: upper-case, truncate to 8, pad to 8, write at
offset 0 (through `_write`, so it marks the card modified). -/
def set_keyword (buf : Str) (k : Str) : Str :=
  bufWrite buf (padEnd ((k.take keySize).map Char.toUpper) keySize) 0

/-- The `value` setter (Value cards): store the value and mark dirty. -/
def Header.setValue : Header → JSValue → Header
  | .val b m _ _ u c, v => .val b m true v u c
  | h, _ => h

/-- The `units` setter (Value cards): store the units and mark dirty. -/
def Header.setUnits : Header → Option Str → Header
  | .val b m _ v _ c, u => .val b m true v u c
  | h, _ => h

/-- The `comment` setter (Value cards): store the comment and mark dirty. -/
def Header.setComment : Header → Option Str → Header
  | .val b m _ v u _, c => .val b m true v u c
  | h, _ => h

/-- The `text` setter (Comment cards): truncate and pad to 72 bytes and
write at offset 8 (through `_write`, so the card becomes modified). -/
def Header.setText : Header → Str → Header
  | .cmt b _, t => .cmt (bufWrite b (padEnd (t.take (headerSize - keySize)) (headerSize - keySize)) keySize) true
  | h, _ => h

/-- A keyword write through `#set_keyword` (goes through `_write`, so the
card becomes modified). -/
def Header.setKeyword : Header → Str → Header
  | .raw b _, k => .raw (set_keyword b k) true
  | .cmt b _, k => .cmt (set_keyword b k) true
  | .val b _ d v u c, k => .val (set_keyword b k) true d v u c

/-- The operations available on an in-memory card. -/
inductive CardOp where
  | opValue (v : JSValue)
  | opUnits (u : Option Str)
  | opComment (c : Option Str)
  | opText (t : Str)
  | opKeyword (k : Str)
  | opRender
  deriving DecidableEq, Repr

def applyOp (op : CardOp) (h : Header) : Header :=
  match op with
  | .opValue v => h.setValue v
  | .opUnits u => h.setUnits u
  | .opComment c => h.setComment c
  | .opText t => h.setText t
  | .opKeyword k => h.setKeyword k
  | .opRender => (Header.render h).2

def applyOps (ops : List CardOp) (h : Header) : Header :=
  ops.foldl (fun c op => applyOp op c) h

/-- Whether the operation is one of the mutating setters. -/
def isMutator : CardOp → Bool
  | .opRender => false
  | _ => true

/-- Which operations the card variant exposes: `value` / `units` /
`comment` setters live on `ValueHeader`, the `text` setter on
`CommentHeader`, keyword writes and `toString` on every variant. -/
def supportsOp : Header → CardOp → Bool
  | .val _ _ _ _ _ _, .opValue _ => true
  | .val _ _ _ _ _ _, .opUnits _ => true
  | .val _ _ _ _ _ _, .opComment _ => true
  | .cmt _ _, .opText _ => true
  | _, .opKeyword _ => true
  | _, .opRender => true
  | _, _ => false

/-! The block cursor of src/lib/file.mjs (`#block_iterator`): a stateful
position over the file's blocks, bounded by an exclusive end index. -/

structure Cursor where
  dev : List Str
  pos : Nat
  endB : Nat
  deriving DecidableEq, Repr

/-- The `done` getter: `n >= end`. -/
def Cursor.done (c : Cursor) : Bool := c.endB ≤ c.pos

/-- `next()`: produce the block at the current position and advance.
`none` covers both the exhausted cursor (JS returns `value: undefined`,
which crashes the consumer in `#read_headers`) and a failed block read. -/
def Cursor.next (c : Cursor) : Option (Str × Cursor) :=
  if c.done then none
  else
    match c.dev.get? c.pos with
    | some b => some (b, { c with pos := c.pos + 1 })
    | none => none

/-- `skip(c)`: `none` models a non-integer (`NaN`) argument, rejected with
a TypeError; a negative count or one that passes the end bound is a
RangeError; otherwise the position advances by the count. -/
def Cursor.skip (c : Cursor) (k : Option Int) : Except String Cursor :=
  match k with
  | none => .error "TypeError"
  | some k =>
    if k < 0 || (c.pos : Int) + k > (c.endB : Int) then .error "RangeError"
    else .ok { c with pos := c.pos + k.toNat }

/-! HDU construction, src/lib/hdu.mjs. -/

/-- The 36 card slices `buf.subarray(j, j + headerSize)` of one block. -/
def cardSlices (blk : Str) : List Str :=
  (List.range (blockSize / headerSize)).map
    (fun j => jsSubstring blk (headerSize * j) (headerSize * j + headerSize))

/-- The inner loop of `HDU.#read_headers` over one block: decode and push
cards in slice order, stopping right after the first card whose keyword is
`END` (the Boolean reports whether `END` was reached in this block). -/
def blockCards : List Str → Except String (List Header × Bool)
  | [] => .ok ([], false)
  | s :: rest =>
    match Header.from_buffer s with
    | .error e => .error e
    | .ok h =>
      if h.keyword = "END".toList then .ok ([h], true)
      else
        match blockCards rest with
        | .error e => .error e
        | .ok r => .ok (h :: r.1, r.2)

/-- The outer loop of `HDU.#read_headers`: pull blocks from the cursor
until a block yields the `END` card.  The fuel is the number of blocks the
cursor can still produce, so running out of fuel and an exhausted cursor
coincide (both model the crash on `undefined.subarray`). -/
def read_headers_go : Nat → Cursor → List Header → Except String (List Header × Cursor)
  | 0, _, _ => .error "TypeError"
  | fuel + 1, c, acc =>
    match c.next with
    | none => .error "TypeError"
    | some (blk, c2) =>
      match blockCards (cardSlices blk) with
      | .error e => .error e
      | .ok r =>
        if r.2 then .ok (acc ++ r.1, c2)
        else read_headers_go fuel c2 (acc ++ r.1)

def read_headers (c : Cursor) : Except String (List Header × Cursor) :=
  read_headers_go (c.endB - c.pos) c []

/-- The HDU record: the ordered card list (the `END` card included) and the
half-open data extent `[startE, endE)` in block indices. -/
structure HDU where
  hdrs : List Header
  startE : Nat
  endE : Nat
  deriving DecidableEq, Repr

/-- `HDU.header(keyword)`: first card whose (stored) keyword equals the
argument exactly; `none` models `undefined`. -/
def findCard (hs : List Header) (kw : Str) : Option Header :=
  hs.find? (fun h => h.keyword = kw)

def HDU.header (h : HDU) (kw : Str) : Option Header := findCard h.hdrs kw

/-- `HDU.headers(keyword)` for a string argument: the argument is
upper-cased and trimmed, then all cards with that keyword are returned in
original order. -/
def HDU.headersK (h : HDU) (kw : Str) : List Header :=
  h.hdrs.filter (fun x => x.keyword = jsTrim (kw.map Char.toUpper))

/-- `HDU.modified`: true when some owned card is modified. -/
def HDU.modified (h : HDU) : Bool := h.hdrs.any (fun x => x.modifiedF)

/-- JS numeric coercion of a card's `value` (an `Option JSValue`, where
`none` is `undefined`) as used by `>`, `<=` and `*` in the HDU layout
code; `none` is `NaN`. -/
def jsToInt : Option JSValue → Option Int
  | none => none
  | some (.bool b) => some (if b then 1 else 0)
  | some (.num n) => some n
  | some (.dec _ _) => none
  | some .nan => none
  | some (.str s) =>
    match jsNumber s with
    | .num n => some n
    | _ => none

/-- The guard `naxis.value > 0` (false on `NaN`/`undefined`). -/
def jsGtZero (v : Option JSValue) : Bool :=
  match jsToInt v with
  | some n => decide (0 < n)
  | none => false

/-- The iteration count of `for (let i = 1; i <= naxis.value; ++i)`. -/
def loopBound (v : Option JSValue) : Nat :=
  match jsToInt v with
  | some n => n.toNat
  | none => 0

/-- NaN-propagating JS float64 multiplication on the integer-valued
operands of the size loop: the exact product rounded to 53 significant
bits, round half to even.  The byte size is carried as the exact integer
`8 * size` ("eighths"): the source divides by 8 exactly once (an exact
float operation), then only multiplies by card values, and scaling by
`2 ^ 3` commutes with significand rounding, so rounding the eighths
numerator is exactly the float64 rounding of the size.  Above `2 ^ 53`
this rounding is lossy, which is where the code's block count diverges
from the exact ceiling formula. -/
def mulNaN (a b : Option Int) : Option Int :=
  match a, b with
  | some x, some y => some (flInt (x * y))
  | _, _ => none

/-- The loop `this.#size *= this.header('NAXIS' + i).value` over the index
list (the running size in eighths): a missing card is a TypeError
(`undefined.value`); a found card without a value multiplies in `NaN`. -/
def sizeLoop (hs : List Header) : List Nat → Option Int → Except String (Option Int)
  | [], s0 => .ok s0
  | i :: rest, s0 =>
    match findCard hs ("NAXIS".toList ++ natToStr i) with
    | none => .error "TypeError"
    | some h => sizeLoop hs rest (mulNaN s0 (jsToInt h.valueF))

/-- `Math.ceil(size / blockSize)` with the byte size given as the exact
integer `s8 = 8 * size`: the ceiling of `s8 / (8 * 2880)`, computed as a
floor division.  The source divides two float64s first; that division is
exact or rounds within the same unit interval whenever the quotient is
below `2 ^ 42` (true for sizes below `2 ^ 53`) or the division is exact,
so the exact ceiling agrees with `Math.ceil` of the float64 quotient on
the ranges the claims and the counterexample exercise. -/
def ceilBlocks (s8 : Int) : Int :=
  Int.fdiv (s8 + (8 * (blockSize : Int) - 1)) (8 * (blockSize : Int))

/-- The HDU constructor: read the header cards, record the data extent
start at the cursor position after `END`, and when `NAXIS > 0` compute
`Math.abs(BITPIX/8)` times the `NAXIS1..NAXISn` values, derive the block
count `Math.ceil(size / blockSize)`, set the extent end before skipping,
and skip that many blocks.  `Math.ceil` on `NaN` stays `NaN` (`none`) and
is then rejected by `skip`'s integer check. -/
def HDU.construct (c : Cursor) : Except String (HDU × Cursor) :=
  match read_headers c with
  | .error e => .error e
  | .ok (hs, c1) =>
    match findCard hs "NAXIS".toList with
    | none => .error "TypeError"
    | some naxis =>
      let bpp := findCard hs "BITPIX".toList
      if jsGtZero naxis.valueF then
        match bpp with
        | none => .error "TypeError"
        | some bcard =>
          let s0 : Option Int := (jsToInt bcard.valueF).map (fun b => |b|)
          match sizeLoop hs (List.range' 1 (loopBound naxis.valueF)) s0 with
          | .error e => .error e
          | .ok sz =>
            match sz.map ceilBlocks with
            | none => .error "TypeError"
            | some k =>
              match c1.skip (some k) with
              | .error e => .error e
              | .ok c2 =>
                .ok ({ hdrs := hs, startE := c1.pos, endE := c1.pos + k.toNat }, c2)
      else
        .ok ({ hdrs := hs, startE := c1.pos, endE := c1.pos }, c1)

/-! File construction, src/lib/file.mjs. -/

structure FileM where
  hdus : List HDU
  blockCount : Nat
  deriving DecidableEq, Repr

/-- The two size validations of the File constructor, in source order, and
the derived block count `Math.floor(stat.size / blockSize)`. -/
def validateSize (size : Nat) : Except String Nat :=
  if size = 0 then .error "FITS file is empty"
  else if size % blockSize ≠ 0 then .error "FITS file does not contain full blocks"
  else .ok (size / blockSize)

/-- The storage device's bytes cut into blocks. -/
def chunkBlocks (bytes : Str) (count : Nat) : List Str :=
  (List.range count).map (fun n => (bytes.drop (blockSize * n)).take blockSize)

/-- The loop `while (!iter.done) this.#hdus.push(new HDU(iter))`.  Each
successful HDU consumes at least one block, so a fuel of the total block
count is sufficient; exhausted fuel with an unfinished cursor is
unreachable on real inputs. -/
def hduLoop : Nat → Cursor → List HDU → Except String (List HDU)
  | 0, c, acc => if c.done then .ok acc else .error "TypeError"
  | fuel + 1, c, acc =>
    if c.done then .ok acc
    else
      match HDU.construct c with
      | .ok (h, c2) => hduLoop fuel c2 (acc ++ [h])
      | .error e => .error e

/-- The File constructor over a storage device holding `bytes`: validate
the size, then build the HDU list by driving one shared cursor until it is
exhausted. -/
def File.fromBytes (bytes : Str) : Except String FileM :=
  match validateSize bytes.length with
  | .error e => .error e
  | .ok bc =>
    match hduLoop bc { dev := chunkBlocks bytes bc, pos := 0, endB := bc } [] with
    | .error e => .error e
    | .ok hs => .ok { hdus := hs, blockCount := bc }

/-! Resource protocol of the File constructor. -/

inductive DevOp where
  | openDev
  | closeDev
  deriving DecidableEq, Repr

/-- The device-handle operations the File constructor performs, paired
with its result.  Per src/lib/file.mjs the constructor calls `fs.openSync`
once at entry and contains no `fs.closeSync` call on any path — neither
after the two validation throws, nor on a header parse error, nor on
success (the class exposes no close method at all) — so the emitted
operation list is `[openDev]` whatever the outcome. -/
def fileOpenWithOps (bytes : Str) : List DevOp × Except String FileM :=
  ([DevOp.openDev], File.fromBytes bytes)

/-! Test fixtures used by the witnesses and counterexamples below. -/

/-- Pad an ASCII card text to the 80-byte record. -/
def padCard (s : Str) : Str := s ++ List.replicate (headerSize - s.length) SP

/-- The card text `OBJECT  = 'it''s ok' / [m] distance`, space-padded. -/
def c5buf : Str :=
  padCard ("OBJECT  = ".toList ++ [QUOTE] ++ "it".toList ++ [QUOTE, QUOTE] ++
    "s ok".toList ++ [QUOTE] ++ " / [m] distance".toList)

/-- The card text `COMMENT = 'it''s ok' / [m] distance`, space-padded. -/
def c5cbuf : Str :=
  padCard ("COMMENT = ".toList ++ [QUOTE] ++ "it".toList ++ [QUOTE, QUOTE] ++
    "s ok".toList ++ [QUOTE] ++ " / [m] distance".toList)

/-- The decoded text value `it(')s ok`. -/
def c5text : Str := "it".toList ++ [QUOTE] ++ "s ok".toList

/-- A header block for the geometry witness (`NAXIS = 1`, `BITPIX = 8`,
`NAXIS1 = 2880`, `END`); the trailing card slices of the block read as
empty buffers, which the card loop never reaches. -/
def c2block : Str :=
  padCard "NAXIS   = 1".toList ++ padCard "BITPIX  = 8".toList ++
    padCard "NAXIS1  = 2880".toList ++ padCard "END".toList

def c2cursor : Cursor := { dev := [c2block], pos := 0, endB := 2 }

/-- A header block with `NAXIS = 0` for the empty-extent witness. -/
def c6block : Str :=
  padCard "SIMPLE  = T".toList ++ padCard "BITPIX  = 8".toList ++
    padCard "NAXIS   = 0".toList ++ padCard "END".toList

def c6cursor : Cursor := { dev := [c6block], pos := 0, endB := 1 }

/-- An 80-byte raw card whose keyword is `NAXIS` (no value marker). -/
def c8buf : Str := padCard "NAXIS".toList

def c8hdu : HDU := { hdrs := [Header.raw c8buf false], startE := 0, endE := 0 }

/-- A decoded value card fixture (`SIMPLE` with `T` right-aligned in the
20-byte value field). -/
def c9buf : Str := padCard ("SIMPLE  = ".toList ++ List.replicate 19 SP ++ [CHT])

def c9card : Header := Header.val c9buf false false (.bool true) none none

/-- A commentary string with an empty units bracket and a closing bracket
present later in the text. -/
def c10str : Str := " / [] [ok]".toList

/-- A decoded card with nonempty units (`1` right-aligned in the value
field, commentary from byte 30). -/
def c10okbuf : Str :=
  padCard ("NAXIS   = ".toList ++ List.replicate 19 SP ++ "1 / [m] x".toList)

/-- The HDU and cursor produced by constructing from the `c2cursor`
fixture (used to witness the END-termination and geometry theorems). -/
def c3res : HDU × Cursor :=
  match HDU.construct c2cursor with
  | .ok r => r
  | .error _ => ({ hdrs := [], startE := 0, endE := 0 }, c2cursor)

/-- The HDU and cursor produced by constructing from the `c6cursor`
fixture. -/
def c6res : HDU × Cursor :=
  match HDU.construct c6cursor with
  | .ok r => r
  | .error _ => ({ hdrs := [], startE := 0, endE := 0 }, c6cursor)

/-- The NAXIS card of the `c6res` HDU. -/
def c6card : Header :=
  match findCard (c6res.1).hdrs "NAXIS".toList with
  | some x => x
  | none => Header.raw [] false

/-- The NAXIS card of the `c3res` HDU. -/
def c2cardN : Header :=
  match findCard (c3res.1).hdrs "NAXIS".toList with
  | some x => x
  | none => Header.raw [] false

/-- The BITPIX card of the `c3res` HDU. -/
def c2cardB : Header :=
  match findCard (c3res.1).hdrs "BITPIX".toList with
  | some x => x
  | none => Header.raw [] false

/-- The NAXIS1 card of the `c3res` HDU. -/
def c2card1 : Header :=
  match findCard (c3res.1).hdrs ("NAXIS".toList ++ natToStr 1) with
  | some x => x
  | none => Header.raw [] false

/-- A header block for the float64-rounding counterexample: `BITPIX = 8`,
`NAXIS = 2`, `NAXIS1 = NAXIS2 = 94907521`.  The product of the two axis
sizes is `9007437542365441 = 2 ^ 53 + 238287624449`, an odd integer just
above `2 ^ 53`, which float64 multiplication rounds half-to-even down to
`9007437542365440`. -/
def cBigBlock : Str :=
  padCard "BITPIX  = 8".toList ++ padCard "NAXIS   = 2".toList ++
    padCard "NAXIS1  = 94907521".toList ++ padCard "NAXIS2  = 94907521".toList ++
    padCard "END".toList

def cBigCursor : Cursor := { dev := [cBigBlock], pos := 0, endB := 3127582479989 }

/-- The encoded commentary after its ` / ` marker: the bracketed units
field (when present) followed by the comment text. -/
def commTail (u c : Option Str) : Str :=
  (match u with
   | some us => LBRACK :: (us ++ (RBRACK :: [SP]))
   | none => []) ++
  (match c with
   | some cs => cs
   | none => [])

theorem jsSubstring_in_range (s : Str) (a b : Nat) (hab : a ≤ b) (hb : b ≤ s.length) :
    jsSubstring s a b = (s.drop a).take (b - a) := by
  unfold jsSubstring
  have h1 : min a s.length = a := by omega
  have h2 : min b s.length = b := by omega
  simp only [h1, h2]
  rw [min_eq_left hab, max_eq_right hab]

/-- C4 (confirmed): opening a device of size zero or of a size that is not
a multiple of 2880 fails with a validation error (no File value is
produced), while the size validation accepts every positive multiple of
2880 and yields the block count. -/
theorem file_size_validation (bytes : Str) :
    ((bytes.length = 0 ∨ bytes.length % blockSize ≠ 0) →
      ∃ e, File.fromBytes bytes = .error e) ∧
    (bytes.length ≠ 0 → bytes.length % blockSize = 0 →
      validateSize bytes.length = .ok (bytes.length / blockSize)) := by
  constructor
  · intro h
    by_cases h0 : bytes.length = 0
    · exact ⟨"FITS file is empty", by simp [File.fromBytes, validateSize, h0]⟩
    · have hm : bytes.length % blockSize ≠ 0 := by tauto
      exact ⟨"FITS file does not contain full blocks",
        by simp [File.fromBytes, validateSize, h0, hm]⟩
  · intro h1 h2
    simp [validateSize, h1, h2]

/-- C4 witness: a one-byte device is rejected; a one-block device passes
the size validation with block count 1. -/
theorem file_size_validation_witness :
    (∃ e, File.fromBytes [SP] = .error e) ∧
    validateSize (List.replicate blockSize SP).length =
      .ok ((List.replicate blockSize SP).length / blockSize) := by
  refine ⟨(file_size_validation [SP]).1 (by decide), ?_⟩
  exact (file_size_validation (List.replicate blockSize SP)).2
    (by rw [List.length_replicate]; decide) (by rw [List.length_replicate]; decide)

/-- C7 (code bug in the source): on the failing one-byte device the File
constructor throws its validation error, yet the operation trace of the
constructor contains no close of the storage handle acquired at entry (the
source has no `closeSync` on any constructor path), so the failed open
leaks the handle. -/
theorem file_open_no_close_on_error :
    (∃ e, (fileOpenWithOps [SP]).2 = .error e) ∧
    DevOp.closeDev ∉ (fileOpenWithOps [SP]).1 := by
  constructor
  · exact ⟨"FITS file does not contain full blocks", by decide⟩
  · decide

/-- C5 counterexample: the exact card text `COMMENT = 'it''s ok' / [m]
distance` decodes to a Comment card (keyword dispatch precedes the value
marker check), not to a Value card holding the text `it's ok`. -/
theorem comment_keyword_dispatch_counterexample :
    Header.from_buffer c5cbuf = .ok (.cmt c5cbuf false) ∧
    ∀ (m d : Bool) (u c : Option Str),
      ¬ Header.from_buffer c5cbuf = .ok (.val c5cbuf m d (.str c5text) u c) := by
  have h : Header.from_buffer c5cbuf = .ok (.cmt c5cbuf false) := by decide
  refine ⟨h, ?_⟩
  intro m d u c hcontra
  rw [h] at hcontra
  have := Except.ok.inj hcontra
  simp at this

/-- C5 (corrected): with a keyword that is not `COMMENT`/`HISTORY`, the
same value text decodes to a Value card with value `it's ok`, units `m`
and comment `distance`; each doubled apostrophe decodes to one literal
apostrophe. -/
theorem value_card_scenario :
    Header.from_buffer c5buf =
      .ok (.val c5buf false false (.str c5text)
        (some "m".toList) (some "distance".toList)) := by
  decide


theorem findIdxQ_some_lt (p : Char → Bool) (s : Str) (i : Nat)
    (h : findIdxQ p s = some i) : i < s.length := by
  induction s generalizing i with
  | nil => simp [findIdxQ] at h
  | cons c rest ih =>
    rw [findIdxQ] at h
    by_cases hc : p c
    · simp only [hc, if_true] at h
      injection h with h2
      simp [← h2]
    · simp only [hc, Bool.false_eq_true, if_false, Option.map_eq_some'] at h
      rcases h with ⟨a, ha, rfl⟩
      have := ih a ha
      simp
      omega

theorem parse_comment_units_ne_nil (s : Str) (u c : Option Str)
    (h : parse_comment s = .ok (u, c)) : u ≠ some [] := by
  unfold parse_comment at h
  by_cases h1 : (jsTrim s).head? = some SLASH
  · simp only [h1, if_true] at h
    by_cases h2 : (jsTrimStart ((jsTrim s).drop 1)).head? = some LBRACK
    · simp only [h2, if_true] at h
      cases hidx : indexOfFrom (jsTrimStart ((jsTrim s).drop 1)) RBRACK 1 with
      | none => rw [hidx] at h; exact absurd h (by simp)
      | some i =>
        rw [hidx] at h
        by_cases h3 : 1 < i
        · simp only [h3, if_true] at h
          injection h with h4
          have hu : u = some (jsSubstring (jsTrimStart ((jsTrim s).drop 1)) 1 i) := by
            have := congrArg Prod.fst h4
            simpa using this.symm
          have hlt : i < (jsTrimStart ((jsTrim s).drop 1)).length := by
            unfold indexOfFrom at hidx
            rcases Option.map_eq_some'.mp hidx with ⟨a, ha, hai⟩
            have h7 := findIdxQ_some_lt _ _ _ ha
            rw [List.length_drop] at h7
            omega
          rw [hu]
          intro hcontra
          have hss := Option.some.inj hcontra
          have h5 : jsSubstring (jsTrimStart ((jsTrim s).drop 1)) 1 i =
              ((jsTrimStart ((jsTrim s).drop 1)).drop 1).take (i - 1) :=
            jsSubstring_in_range _ 1 i (by omega) (by omega)
          rw [h5] at hss
          have h6 := congrArg List.length hss
          rw [List.length_take, List.length_drop] at h6
          simp only [List.length_nil] at h6
          omega
        · simp [h3] at h
    · simp only [h2, Bool.false_eq_true, if_false] at h
      injection h with h4
      have hu : u = none := by
        have := congrArg Prod.fst h4
        simpa using this.symm
      simp [hu]
  · simp only [h1, Bool.false_eq_true, if_false] at h
    injection h with h4
    have hu : u = none := by
      have := congrArg Prod.fst h4
      simpa using this.symm
    simp [hu]


theorem parse_string_units_ne_nil (buf : Str) (v : JSValue) (u c : Option Str)
    (h : parse_string buf = .ok (v, u, c)) : u ≠ some [] := by
  unfold parse_string at h
  dsimp only [] at h
  split at h
  · exact absurd h (by simp)
  · split at h
    · rename_i r u2 c2 heq
      injection h with h4
      have hu : u = u2 := by
        have := congrArg (fun x => x.2.1) h4
        simpa using this.symm
      rw [hu]
      exact parse_comment_units_ne_nil _ _ _ heq
    · exact absurd h (by simp)

theorem parseValue_units_ne_nil (buf : Str) (v : JSValue) (u c : Option Str)
    (h : parseValue buf = .ok (v, u, c)) : u ≠ some [] := by
  unfold parseValue at h
  dsimp only [] at h
  split at h
  · exact parse_string_units_ne_nil buf v u c h
  · split at h
    · rename_i r u2 c2 heq
      injection h with h4
      have hu : u = u2 := by
        have := congrArg (fun x => x.2.1) h4
        simpa using this.symm
      rw [hu]
      exact parse_comment_units_ne_nil _ _ _ heq
    · exact absurd h (by simp)

theorem from_buffer_units_ne_nil (buf : Str) (h : Header)
    (hd : Header.from_buffer buf = .ok h) : h.unitsF ≠ some [] := by
  unfold Header.from_buffer at hd
  dsimp only [] at hd
  split at hd
  · injection hd with h4
    rw [← h4]
    simp [Header.unitsF]
  · split at hd
    · split at hd
      · rename_i r v2 u2 c2 heq
        injection hd with h4
        rw [← h4]
        simpa [Header.unitsF] using parseValue_units_ne_nil buf v2 u2 c2 heq
      · exact absurd hd (by simp)
    · injection hd with h4
      rw [← h4]
      simp [Header.unitsF]


/-- C10 (confirmed): commentary whose text after the `/` marker begins
with an empty units bracket `[]` raises the malformed-units error even
when a closing bracket occurs later in the text, and consequently no
successfully decoded card carries an empty units string. -/
theorem empty_units_bracket_rejected :
    (∀ s : Str, (jsTrim s).head? = some SLASH →
      (jsTrimStart ((jsTrim s).drop 1)).take 2 = [LBRACK, RBRACK] →
      parse_comment s = .error "Malformed units field in comment") ∧
    (∀ (buf : Str) (h : Header), Header.from_buffer buf = .ok h →
      h.unitsF ≠ some []) := by
  constructor
  · intro s h1 h2
    have ht2 : ∃ rest, jsTrimStart ((jsTrim s).drop 1) = LBRACK :: RBRACK :: rest := by
      rcases hshape : jsTrimStart ((jsTrim s).drop 1) with _ | ⟨x, _ | ⟨y, r⟩⟩
      · rw [hshape] at h2; simp at h2
      · rw [hshape] at h2; simp at h2
      · rw [hshape] at h2
        simp [List.take] at h2
        exact ⟨r, by rw [h2.1, h2.2]⟩
    rcases ht2 with ⟨rest, hr⟩
    have hidx : indexOfFrom (LBRACK :: RBRACK :: rest) RBRACK 1 = some 1 := by
      have hdrop : (LBRACK :: RBRACK :: rest).drop 1 = RBRACK :: rest := rfl
      rw [indexOfFrom, hdrop, findIdxQ, if_pos (by decide)]
      rfl
    simp only [parse_comment, h1, if_true, hr]
    rw [if_pos (show (LBRACK :: RBRACK :: rest).head? = some LBRACK from rfl), hidx]
    rfl
  · intro buf h hd
    exact from_buffer_units_ne_nil buf h hd

/-- C10 witness: the commentary ` / [] [ok]` is rejected; the decoded card
`NAXIS = 1 / [m] x` has units `m`, not the empty string. -/
theorem empty_units_bracket_witness :
    parse_comment c10str = .error "Malformed units field in comment" ∧
    (Header.val c10okbuf false false (.num 1) (some "m".toList)
      (some "x".toList)).unitsF ≠ some [] := by
  constructor
  · exact empty_units_bracket_rejected.1 c10str (by decide) (by decide)
  · exact empty_units_bracket_rejected.2 c10okbuf _ (by decide)

theorem find_eq_filter_head (p : Header → Bool) (l : List Header) :
    l.find? p = (l.filter p).head? := by
  induction l with
  | nil => rfl
  | cons a t ih =>
    cases hp : p a
    · rw [List.find?_cons_of_neg _ (by simp [hp]), List.filter_cons_of_neg (by simp [hp]), ih]
    · rw [List.find?_cons_of_pos _ hp, List.filter_cons_of_pos hp, List.head?_cons]

/-- C8 counterexample: on an HDU holding one card with stored keyword
`NAXIS`, the lookup `header("naxis")` finds nothing while
`headers("naxis")` finds the card, so `header` is not case-insensitive and
the two operations disagree on a lower-case argument. -/
theorem header_lookup_case_counterexample :
    HDU.header c8hdu "naxis".toList = none ∧
    HDU.headersK c8hdu "naxis".toList = [Header.raw c8buf false] := by
  decide

/-- C8 (corrected): `headers(k)` upper-cases and trims its argument and is
therefore case-insensitive, while `header(k)` compares the stored
upper-cased keyword against `k` verbatim; the two agree exactly when `k`
is already upper-cased and trimmed, `header(k)` then returning the first
card of `headers(k)`, which lists in original order the cards whose
keyword equals `k`. -/
theorem header_lookup_agreement (h : HDU) (kw : Str)
    (hfix : jsTrim (kw.map Char.toUpper) = kw) :
    HDU.header h kw = (HDU.headersK h kw).head? ∧
    HDU.headersK h kw = h.hdrs.filter (fun x => x.keyword = kw) := by
  have h2 : HDU.headersK h kw = h.hdrs.filter (fun x => x.keyword = kw) := by
    rw [HDU.headersK, hfix]
  refine ⟨?_, h2⟩
  rw [HDU.header, findCard, h2]
  exact find_eq_filter_head _ _

/-- C8 witness: with the upper-cased argument `NAXIS` the two lookups
agree on the one-card HDU fixture. -/
theorem header_lookup_agreement_witness :
    HDU.header c8hdu "NAXIS".toList = (HDU.headersK c8hdu "NAXIS".toList).head? ∧
    HDU.headersK c8hdu "NAXIS".toList =
      c8hdu.hdrs.filter (fun x => x.keyword = "NAXIS".toList) := by
  exact header_lookup_agreement c8hdu "NAXIS".toList (by decide)

theorem applyOp_keeps_modified (op : CardOp) (c : Header)
    (h : c.modifiedF = true) : (applyOp op c).modifiedF = true := by
  cases c with
  | raw b m =>
    cases op <;>
      simp_all [applyOp, Header.setValue, Header.setUnits, Header.setComment,
        Header.setText, Header.setKeyword, Header.render, Header.modifiedF]
  | cmt b m =>
    cases op <;>
      simp_all [applyOp, Header.setValue, Header.setUnits, Header.setComment,
        Header.setText, Header.setKeyword, Header.render, Header.modifiedF]
  | val b m d v u cc =>
    cases op with
    | opRender =>
      by_cases hd : d = true
      · simp [applyOp, Header.render, hd, Header.modifiedF]
      · have hd2 : d = false := by revert hd; cases d <;> simp
        subst hd2
        simpa [applyOp, Header.render, Header.modifiedF] using h
    | opValue v2 => simp [applyOp, Header.setValue, Header.modifiedF]
    | opUnits u2 => simp [applyOp, Header.setUnits, Header.modifiedF]
    | opComment c2 => simp [applyOp, Header.setComment, Header.modifiedF]
    | opText t2 => simpa [applyOp, Header.setText, Header.modifiedF] using h
    | opKeyword k2 => simp [applyOp, Header.setKeyword, Header.modifiedF]

theorem applyOps_keeps_modified (ops : List CardOp) (c : Header)
    (h : c.modifiedF = true) : (applyOps ops c).modifiedF = true := by
  induction ops generalizing c with
  | nil => simpa [applyOps] using h
  | cons op rest ih =>
    have h2 := applyOp_keeps_modified op c h
    simpa [applyOps, List.foldl_cons] using ih _ h2

theorem from_buffer_shape (buf : Str) (card : Header)
    (h : Header.from_buffer buf = .ok card) :
    card = .cmt buf false ∨ card = .raw buf false ∨
      ∃ v u c, card = .val buf false false v u c := by
  unfold Header.from_buffer at h
  dsimp only [] at h
  split at h
  · left; exact (Except.ok.inj h).symm
  · split at h
    · split at h
      · rename_i r v2 u2 c2 heq
        right; right; exact ⟨v2, u2, c2, (Except.ok.inj h).symm⟩
      · exact absurd h (by simp)
    · right; left; exact (Except.ok.inj h).symm

/-- C9 (confirmed): a card decoded from an 80-byte buffer starts with
`modified = false` and its `toString()` is exactly the input bytes (and
rendering leaves the card unchanged); every mutating setter the variant
supports turns `modified` on, and once on it stays on under any further
sequence of operations. -/
theorem decoded_card_pristine (buf : Str) (card : Header)
    (hlen : buf.length = headerSize)
    (hdec : Header.from_buffer buf = .ok card) :
    card.modifiedF = false ∧
    Header.render card = (buf, card) ∧
    (∀ op, isMutator op = true → supportsOp card op = true →
      (applyOp op card).modifiedF = true) ∧
    (∀ (c : Header) (ops : List CardOp), c.modifiedF = true →
      (applyOps ops c).modifiedF = true) := by
  have htake : buf.take headerSize = buf := List.take_of_length_le (by omega)
  rcases from_buffer_shape buf card hdec with h | h | ⟨v, u, c, h⟩ <;> subst h
  · refine ⟨rfl, ?_, ?_, fun c ops => applyOps_keeps_modified ops c⟩
    · simp [Header.render, htake]
    · intro op hm hs
      cases op <;>
        simp_all [isMutator, supportsOp, applyOp, Header.setValue, Header.setUnits,
          Header.setComment, Header.setText, Header.setKeyword, Header.render,
          Header.modifiedF]
  · refine ⟨rfl, ?_, ?_, fun c ops => applyOps_keeps_modified ops c⟩
    · simp [Header.render, htake]
    · intro op hm hs
      cases op <;>
        simp_all [isMutator, supportsOp, applyOp, Header.setValue, Header.setUnits,
          Header.setComment, Header.setText, Header.setKeyword, Header.render,
          Header.modifiedF]
  · refine ⟨rfl, ?_, ?_, fun c ops => applyOps_keeps_modified ops c⟩
    · simp [Header.render, htake]
    · intro op hm hs
      cases op <;>
        simp_all [isMutator, supportsOp, applyOp, Header.setValue, Header.setUnits,
          Header.setComment, Header.setText, Header.setKeyword, Header.render,
          Header.modifiedF]

/-- C9 witness: the decoded `SIMPLE = T` card is unmodified, renders to
its input bytes, and setting its value marks it modified. -/
theorem decoded_card_pristine_witness :
    Header.modifiedF c9card = false ∧
    Header.render c9card = (c9buf, c9card) ∧
    (applyOp (CardOp.opValue (.bool false)) c9card).modifiedF = true := by
  have h := decoded_card_pristine c9buf c9card (by decide) (by decide)
  exact ⟨h.1, h.2.1, h.2.2.1 (CardOp.opValue (.bool false)) (by decide) (by decide)⟩


theorem blockCards_true (ss : List Str) (hs : List Header)
    (h : blockCards ss = .ok (hs, true)) :
    ∃ pre last, hs = pre ++ [last] ∧ last.keyword = "END".toList ∧
      ∀ x ∈ pre, x.keyword ≠ "END".toList := by
  induction ss generalizing hs with
  | nil => simp [blockCards] at h
  | cons s rest ih =>
    rw [blockCards] at h
    split at h
    · exact absurd h (by simp)
    · rename_i hd hfb
      split at h
      · rename_i hk
        have h2 := Except.ok.inj h
        injection h2 with hh hb
        exact ⟨[], hd, by rw [← hh]; rfl, hk, by simp⟩
      · rename_i hk
        split at h
        · exact absurd h (by simp)
        · rename_i r hbc
          have h2 := Except.ok.inj h
          injection h2 with hh hb
          have hrest : blockCards rest = .ok (r.1, true) := by
            rw [hbc, ← hb]
          rcases ih r.1 hrest with ⟨pre, last, hEq, hK, hPre⟩
          refine ⟨hd :: pre, last, ?_, hK, ?_⟩
          · rw [← hh, hEq]; rfl
          · intro x hx
            rcases List.mem_cons.mp hx with rfl | hx2
            · exact hk
            · exact hPre x hx2

theorem blockCards_false (ss : List Str) (hs : List Header)
    (h : blockCards ss = .ok (hs, false)) :
    ∀ x ∈ hs, x.keyword ≠ "END".toList := by
  induction ss generalizing hs with
  | nil =>
    rw [blockCards] at h
    have h2 := Except.ok.inj h
    injection h2 with hh hb
    rw [← hh]
    simp
  | cons s rest ih =>
    rw [blockCards] at h
    split at h
    · exact absurd h (by simp)
    · rename_i hd hfb
      split at h
      · rename_i hk
        have h2 := Except.ok.inj h
        injection h2 with hh hb
        exact absurd hb (by simp)
      · rename_i hk
        split at h
        · exact absurd h (by simp)
        · rename_i r hbc
          have h2 := Except.ok.inj h
          injection h2 with hh hb
          have hrest : blockCards rest = .ok (r.1, false) := by rw [hbc, ← hb]
          intro x hx
          rw [← hh] at hx
          rcases List.mem_cons.mp hx with rfl | hx2
          · exact hk
          · exact ih r.1 hrest x hx2

theorem read_headers_go_end (fuel : Nat) (c : Cursor) (acc hs : List Header)
    (c1 : Cursor) (h : read_headers_go fuel c acc = .ok (hs, c1))
    (hacc : ∀ x ∈ acc, x.keyword ≠ "END".toList) :
    ∃ pre last, hs = pre ++ [last] ∧ last.keyword = "END".toList ∧
      ∀ x ∈ pre, x.keyword ≠ "END".toList := by
  induction fuel generalizing c acc with
  | zero => simp [read_headers_go] at h
  | succ f ih =>
    rw [read_headers_go] at h
    split at h
    · exact absurd h (by simp)
    · rename_i pr blk c2 hnext
      split at h
      · exact absurd h (by simp)
      · rename_i r hbc
        split at h
        · rename_i hr2
          have h2 := Except.ok.inj h
          injection h2 with hh hcc
          have hbt : blockCards (cardSlices blk) = .ok (r.1, true) := by
            rw [hbc, ← hr2]
          rcases blockCards_true _ _ hbt with ⟨pre, last, hEq, hK, hPre⟩
          refine ⟨acc ++ pre, last, ?_, hK, ?_⟩
          · rw [← hh, hEq, List.append_assoc]
          · intro x hx
            rcases List.mem_append.mp hx with hx2 | hx2
            · exact hacc x hx2
            · exact hPre x hx2
        · rename_i hr2
          have hr2f : r.2 = false := by revert hr2; cases r.2 <;> simp
          have hbf : blockCards (cardSlices blk) = .ok (r.1, false) := by
            rw [hbc, ← hr2f]
          refine ih c2 (acc ++ r.1) h ?_
          intro x hx
          rcases List.mem_append.mp hx with hx2 | hx2
          · exact hacc x hx2
          · exact blockCards_false _ _ hbf x hx2

/-- Every successful HDU construction consists of a successful header read
followed by the layout computation; the stored card list is the read one,
and the extent starts at the cursor position reached after the `END`
card. -/
theorem construct_read_headers (c c2 : Cursor) (hdu : HDU)
    (h : HDU.construct c = .ok (hdu, c2)) :
    ∃ c1, read_headers c = .ok (hdu.hdrs, c1) ∧ hdu.startE = c1.pos := by
  unfold HDU.construct at h
  cases hrh : read_headers c with
  | error e => rw [hrh] at h; exact absurd h (by simp)
  | ok r =>
    obtain ⟨hs, c1⟩ := r
    rw [hrh] at h
    dsimp only [] at h
    split at h
    · exact absurd h (by simp)
    · rename_i naxis hfind
      split at h
      · split at h
        · exact absurd h (by simp)
        · rename_i bcard hbpp
          split at h
          · exact absurd h (by simp)
          · rename_i sz hsz
            split at h
            · exact absurd h (by simp)
            · rename_i ko k hk
              split at h
              · exact absurd h (by simp)
              · rename_i c2x hskip
                have h2 := Except.ok.inj h
                injection h2 with hh hcc
                subst hh
                exact ⟨c1, rfl, rfl⟩
      · have h2 := Except.ok.inj h
        injection h2 with hh hcc
        subst hh
        exact ⟨c1, rfl, rfl⟩

/-- C3 (confirmed): header parsing for a successfully constructed HDU
stops exactly at the first `END` card: the stored card list ends with the
`END` card, and no other stored card has keyword `END` (cards in later
slots or later blocks are never attributed to the HDU). -/
theorem end_terminates_headers (c c2 : Cursor) (hdu : HDU)
    (hc : HDU.construct c = .ok (hdu, c2)) :
    ∃ pre last, hdu.hdrs = pre ++ [last] ∧ last.keyword = "END".toList ∧
      ∀ x ∈ pre, x.keyword ≠ "END".toList := by
  rcases construct_read_headers c c2 hdu hc with ⟨c1, hrh, _⟩
  exact read_headers_go_end _ _ [] hdu.hdrs c1 hrh (by simp)


/-- C3 witness: constructing from the concrete one-block fixture yields a
card list ending in the `END` card with no earlier `END`. -/
theorem end_terminates_headers_witness :
    ∃ pre last, (c3res.1).hdrs = pre ++ [last] ∧ last.keyword = "END".toList ∧
      ∀ x ∈ pre, x.keyword ≠ "END".toList := by
  exact end_terminates_headers c2cursor c3res.2 c3res.1 (by decide)

/-- C6 (confirmed): when the constructed HDU's `NAXIS` card has value `0`,
the data extent is empty and sits at the cursor position reached after the
`END` card, and the constructor performs no skip: it returns exactly the
cursor left by header reading. -/
theorem naxis_zero_empty_extent (c c2 : Cursor) (hdu : HDU) (cardN : Header)
    (hc : HDU.construct c = .ok (hdu, c2))
    (hN : findCard hdu.hdrs "NAXIS".toList = some cardN)
    (hv : cardN.valueF = some (.num 0)) :
    hdu.endE = hdu.startE ∧ c2.pos = hdu.startE ∧
      ∃ c1, read_headers c = .ok (hdu.hdrs, c1) ∧ c2 = c1 ∧ hdu.startE = c1.pos := by
  rcases construct_read_headers c c2 hdu hc with ⟨c1x, hrhx, hstx⟩
  unfold HDU.construct at hc
  rw [hrhx] at hc
  dsimp only [] at hc
  rw [hN] at hc
  have hgz : jsGtZero cardN.valueF = false := by rw [hv]; rfl
  simp only [hgz, Bool.false_eq_true, if_false] at hc
  have h2 := Except.ok.inj hc
  injection h2 with hh hcc
  refine ⟨?_, ?_, c1x, hrhx, hcc.symm, hstx⟩
  · rw [← hh]
  · rw [← hcc, ← hh]

/-- C6 witness: the `NAXIS = 0` fixture yields an HDU with an empty extent
at the post-END cursor position and an unmoved cursor. -/
theorem naxis_zero_empty_extent_witness :
    (c6res.1).endE = (c6res.1).startE ∧ (c6res.2).pos = (c6res.1).startE ∧
      ∃ c1, read_headers c6cursor = .ok ((c6res.1).hdrs, c1) ∧
        c6res.2 = c1 ∧ (c6res.1).startE = c1.pos := by
  exact naxis_zero_empty_extent c6cursor c6res.2 c6res.1 c6card
    (by decide) (by decide) (by decide)


/-! The float64 significand rounding: identity below `2 ^ 53`, and on any
value whose dropped low bits are zero (in particular on `8 * M` for sizes
`M` below `2 ^ 53`, the eighths carried by the size loop). -/

theorem bitsAux_le (f : Nat) : ∀ n b, n ≤ f → n < 2 ^ b → bitsAux f n ≤ b := by
  induction f with
  | zero =>
    intro n b hn hb
    have h0 : n = 0 := by omega
    subst h0
    exact Nat.zero_le b
  | succ f ih =>
    intro n b hn hb
    rw [bitsAux]
    by_cases h0 : n = 0
    · rw [if_pos h0]
      exact Nat.zero_le b
    · rw [if_neg h0]
      cases b with
      | zero =>
        have h1 : (2:Nat) ^ 0 = 1 := by norm_num
        omega
      | succ b2 =>
        have h1 : n / 2 ≤ f := by omega
        have h2 : n / 2 < 2 ^ b2 := by
          have he : (2:Nat) ^ (b2 + 1) = 2 * 2 ^ b2 := by rw [pow_succ]; ring
          omega
        have h3 := ih (n / 2) b2 h1 h2
        omega

theorem bitsAux_ge (f : Nat) : ∀ n b, n ≤ f → 2 ^ b ≤ n → b + 1 ≤ bitsAux f n := by
  induction f with
  | zero =>
    intro n b hn hb
    have h1 : 0 < 2 ^ b := pow_pos (by norm_num) b
    omega
  | succ f ih =>
    intro n b hn hb
    have h1 : 0 < 2 ^ b := pow_pos (by norm_num) b
    have h0 : ¬ n = 0 := by omega
    rw [bitsAux, if_neg h0]
    cases b with
    | zero => omega
    | succ b2 =>
      have h2 : n / 2 ≤ f := by omega
      have h3 : 2 ^ b2 ≤ n / 2 := by
        have he : (2:Nat) ^ (b2 + 1) = 2 * 2 ^ b2 := by rw [pow_succ]; ring
        omega
      have h4 := ih (n / 2) b2 h2 h3
      omega

theorem nbits_le (n b : Nat) (h : n < 2 ^ b) : nbits n ≤ b :=
  bitsAux_le n n b le_rfl h

theorem nbits_ge (n b : Nat) (h : 2 ^ b ≤ n) : b + 1 ≤ nbits n :=
  bitsAux_ge n n b le_rfl h

theorem roundFloat_small (n : Nat) (h : n < 2 ^ 53) : roundFloat n = n := by
  unfold roundFloat
  rw [if_pos h]

theorem roundFloat_eight (M : Nat) (h : M < 2 ^ 53) :
    roundFloat (8 * M) = 8 * M := by
  by_cases h8 : 8 * M < 2 ^ 53
  · exact roundFloat_small _ h8
  · unfold roundFloat
    rw [if_neg h8]
    dsimp only []
    have hub : nbits (8 * M) ≤ 56 := nbits_le _ 56 (by
      have he : (2:Nat) ^ 56 = 8 * 2 ^ 53 := by norm_num
      omega)
    have hlb : 54 ≤ nbits (8 * M) := nbits_ge _ 53 (by omega)
    have hdvd : 2 ^ (nbits (8 * M) - 53) ∣ 8 * M := by
      have hd8 : (2:Nat) ^ (nbits (8 * M) - 53) ∣ 8 :=
        dvd_trans (pow_dvd_pow 2 (by omega : nbits (8 * M) - 53 ≤ 3))
          (by norm_num : (2:Nat) ^ 3 ∣ 8)
      exact hd8.mul_right M
    have hr : 8 * M % 2 ^ (nbits (8 * M) - 53) = 0 :=
      Nat.mod_eq_zero_of_dvd hdvd
    rw [hr]
    rw [if_neg (Nat.not_lt_zero _)]
    rw [if_pos (pow_pos (by norm_num : (0:Nat) < 2) _)]
    exact Nat.div_mul_cancel hdvd

theorem flInt_mul8 (M : Int) (h0 : 0 ≤ M) (h : M < 2 ^ 53) :
    flInt (8 * M) = 8 * M := by
  unfold flInt
  rw [if_neg (by omega)]
  have hn : (8 * M).natAbs = 8 * M.natAbs := by
    rw [Int.natAbs_mul]
    rfl
  have h53 : (2:Int) ^ 53 = 9007199254740992 := by norm_num
  have h53n : (2:Nat) ^ 53 = 9007199254740992 := by norm_num
  rw [hn, roundFloat_eight M.natAbs (by omega)]
  omega


theorem one_le_prod_ints (l : List Int) (h : ∀ x ∈ l, 1 ≤ x) : 1 ≤ l.prod := by
  induction l with
  | nil => simp
  | cons a t ih =>
    rw [List.prod_cons]
    have ha := h a (by simp)
    have ht := ih (fun x hx => h x (by simp [hx]))
    nlinarith

/-- While every partial byte size stays below `2 ^ 53`, the float64
rounding in `mulNaN` is the identity and the size loop computes the exact
product (in eighths); factors of at least 1 make the partial products at
most the final one, so a bound on the final size suffices. -/
theorem sizeLoop_spec (hs : List Header) (a : Nat → Int) (is : List Nat) (S0 : Int)
    (hA : ∀ i ∈ is, ∃ ci, findCard hs ("NAXIS".toList ++ natToStr i) = some ci ∧
      ci.valueF = some (.num (a i)))
    (ha : ∀ i ∈ is, 1 ≤ a i)
    (hS0 : 0 ≤ S0)
    (hbound : S0 * (is.map a).prod < 2 ^ 53) :
    sizeLoop hs is (some (8 * S0)) = .ok (some (8 * (S0 * (is.map a).prod))) := by
  induction is generalizing S0 with
  | nil => simp [sizeLoop]
  | cons i rest ih =>
    rcases hA i (by simp) with ⟨ci, hfind, hval⟩
    have hprod : ((i :: rest).map a).prod = a i * (rest.map a).prod := by
      simp
    rw [hprod, ← mul_assoc] at hbound
    have hai := ha i (by simp)
    have hrest1 : (1:Int) ≤ (rest.map a).prod := by
      apply one_le_prod_ints
      intro x hx
      rcases List.mem_map.mp hx with ⟨j, hj, rfl⟩
      exact ha j (by simp [hj])
    have hx0 : 0 ≤ S0 * a i := mul_nonneg hS0 (by omega)
    have hstep : S0 * a i < 2 ^ 53 := by nlinarith
    rw [sizeLoop, hfind]
    show sizeLoop hs rest (mulNaN (some (8 * S0)) (jsToInt ci.valueF)) = _
    have hji : jsToInt ci.valueF = some (a i) := by rw [hval]; rfl
    rw [hji]
    have hmul : mulNaN (some (8 * S0)) (some (a i)) = some (8 * (S0 * a i)) := by
      show some (flInt (8 * S0 * a i)) = some (8 * (S0 * a i))
      rw [mul_assoc]
      rw [flInt_mul8 (S0 * a i) hx0 hstep]
    rw [hmul, ih (S0 * a i) (fun j hj => hA j (by simp [hj]))
      (fun j hj => ha j (by simp [hj])) hx0 hbound]
    simp [List.map_cons, List.prod_cons, mul_assoc]

theorem prod_toNat_cast (a : Nat → Int) (is : List Nat)
    (h : ∀ i ∈ is, 1 ≤ a i) :
    (((is.map (fun i => (a i).toNat)).prod : Nat) : Int) = (is.map a).prod := by
  induction is with
  | nil => simp
  | cons i r ih =>
    simp only [List.map_cons, List.prod_cons, Nat.cast_mul]
    rw [Int.toNat_of_nonneg (by have := h i (by simp); omega)]
    rw [ih (fun j hj => h j (by simp [hj]))]

theorem ceilBlocks_nat (N : Nat) :
    ceilBlocks ((8 * N : Nat) : Int) = (((N + (blockSize - 1)) / blockSize : Nat) : Int) := by
  unfold ceilBlocks
  have h1 : ((8 * N : Nat) : Int) + (8 * ((blockSize : Nat) : Int) - 1) =
      ((8 * N + 23039 : Nat) : Int) := by
    unfold blockSize
    push_cast
    ring
  have h2 : (8 : Int) * ((blockSize : Nat) : Int) = ((23040 : Nat) : Int) := by
    unfold blockSize
    norm_num
  rw [h1, h2, ← Int.ofNat_fdiv]
  have h3 : (8 * N + 23039) / 23040 = (N + (blockSize - 1)) / blockSize := by
    unfold blockSize
    omega
  rw [h3]

/-- C2 (corrected): for a successfully constructed HDU whose `NAXIS` card
holds `n ≥ 1`, whose `BITPIX` card holds a value in `{8, 16, 32, -32,
-64}`, and whose `NAXIS1..NAXISn` cards hold values `≥ 1`, provided the
byte size `|BITPIX|/8 * Π NAXISi` stays below `2 ^ 53` (so the float64
size accumulation is exact), the data extent spans exactly
`ceil(|BITPIX|/8 * Π NAXISi / 2880)` blocks starting at the cursor
position reached after the `END` card, and the returned cursor is
advanced past exactly that many blocks.  Above `2 ^ 53` the product
rounds and the code's block count diverges from this formula (see the
counterexample). -/
theorem hdu_block_geometry (c c2 : Cursor) (hdu : HDU) (n b : Int) (a : Nat → Int)
    (cardN cardB : Header)
    (hc : HDU.construct c = .ok (hdu, c2))
    (hNf : findCard hdu.hdrs "NAXIS".toList = some cardN)
    (hNv : cardN.valueF = some (.num n))
    (hn : 1 ≤ n)
    (hBf : findCard hdu.hdrs "BITPIX".toList = some cardB)
    (hBv : cardB.valueF = some (.num b))
    (hb : b = 8 ∨ b = 16 ∨ b = 32 ∨ b = -32 ∨ b = -64)
    (hA : ∀ i, 1 ≤ i → i ≤ n.toNat →
      ∃ ci, findCard hdu.hdrs ("NAXIS".toList ++ natToStr i) = some ci ∧
        ci.valueF = some (.num (a i)))
    (ha : ∀ i, 1 ≤ i → i ≤ n.toNat → 1 ≤ a i)
    (hbound : b.natAbs / 8 *
      ((List.range' 1 n.toNat).map (fun i => (a i).toNat)).prod < 2 ^ 53) :
    hdu.endE - hdu.startE =
      (b.natAbs / 8 * ((List.range' 1 n.toNat).map (fun i => (a i).toNat)).prod
        + (blockSize - 1)) / blockSize ∧
    hdu.endE = hdu.startE +
      (b.natAbs / 8 * ((List.range' 1 n.toNat).map (fun i => (a i).toNat)).prod
        + (blockSize - 1)) / blockSize ∧
    c2.pos = hdu.endE ∧
    (∃ c1, read_headers c = .ok (hdu.hdrs, c1) ∧ hdu.startE = c1.pos) := by
  rcases construct_read_headers c c2 hdu hc with ⟨c1x, hrhx, hstx⟩
  unfold HDU.construct at hc
  rw [hrhx] at hc
  dsimp only [] at hc
  rw [hNf] at hc
  dsimp only [] at hc
  have hgz : jsGtZero cardN.valueF = true := by
    rw [hNv]
    simp [jsGtZero, jsToInt]
    omega
  rw [if_pos hgz, hBf] at hc
  dsimp only [] at hc
  have hs0 : (jsToInt cardB.valueF).map (fun x => |x|) = some |b| := by rw [hBv]; rfl
  rw [hs0] at hc
  have hlb : loopBound cardN.valueF = n.toNat := by rw [hNv]; rfl
  rw [hlb] at hc
  have hA2 : ∀ i ∈ List.range' 1 n.toNat,
      ∃ ci, findCard hdu.hdrs ("NAXIS".toList ++ natToStr i) = some ci ∧
        ci.valueF = some (.num (a i)) := by
    intro i hi
    rcases List.mem_range'_1.mp hi with ⟨h1, h2⟩
    exact hA i h1 (by omega)
  set P : Nat := ((List.range' 1 n.toNat).map (fun i => (a i).toNat)).prod with hP
  have hcast : (((List.range' 1 n.toNat).map (fun i => (a i).toNat)).prod : Int) =
      ((List.range' 1 n.toNat).map a).prod := by
    apply prod_toNat_cast
    intro i hi
    rcases List.mem_range'_1.mp hi with ⟨h1, h2⟩
    exact ha i h1 (by omega)
  have ha2 : ∀ i ∈ List.range' 1 n.toNat, 1 ≤ a i := by
    intro i hi
    rcases List.mem_range'_1.mp hi with ⟨h1, h2⟩
    exact ha i h1 (by omega)
  have habs8 : |b| = 8 * ((b.natAbs / 8 : Nat) : Int) := by
    rcases hb with rfl | rfl | rfl | rfl | rfl <;> decide
  have hboundI : ((b.natAbs / 8 : Nat) : Int) *
      ((List.range' 1 n.toNat).map a).prod < 2 ^ 53 := by
    rw [← hcast]
    exact_mod_cast hbound
  rw [habs8] at hc
  rw [sizeLoop_spec hdu.hdrs a (List.range' 1 n.toNat) ((b.natAbs / 8 : Nat) : Int)
    hA2 ha2 (by positivity) hboundI] at hc
  dsimp only [] at hc
  rw [show ∀ (x : Int), Option.map ceilBlocks (some x) = some (ceilBlocks x) from fun x => rfl] at hc
  have hS8 : 8 * (((b.natAbs / 8 : Nat) : Int) * ((List.range' 1 n.toNat).map a).prod) =
      ((8 * (b.natAbs / 8 * P) : Nat) : Int) := by
    rw [← hcast, hP]
    push_cast
    ring
  rw [hS8, ceilBlocks_nat] at hc
  set K : Nat := (b.natAbs / 8 * P + (blockSize - 1)) / blockSize with hK
  dsimp only [] at hc
  unfold Cursor.skip at hc
  dsimp only [] at hc
  split at hc
  · exact absurd hc (by simp)
  · rename_i c2x hskip
    split at hskip
    · exact absurd hskip (by simp)
    · have hc2x := Except.ok.inj hskip
      have h2 := Except.ok.inj hc
      injection h2 with hh hcc
      have hend : hdu.endE = c1x.pos + K := by
        rw [← hh]
        simp
      have hpos : c2.pos = c1x.pos + K := by
        rw [← hcc, ← hc2x]
        simp
      refine ⟨?_, ?_, ?_, c1x, hrhx, hstx⟩
      · rw [hend, hstx]
        exact Nat.add_sub_cancel_left c1x.pos K
      · rw [hend, hstx]
      · rw [hpos, hend]


/-- C2 witness: the concrete fixture with `NAXIS = 1`, `BITPIX = 8` and
`NAXIS1 = 2880` yields an extent of exactly one data block, with the
cursor advanced past it. -/
theorem hdu_block_geometry_witness :
    (c3res.1).endE - (c3res.1).startE =
      ((8 : Int).natAbs / 8 *
        ((List.range' 1 (1 : Int).toNat).map
          (fun i => ((fun _ => (2880 : Int)) i).toNat)).prod
        + (blockSize - 1)) / blockSize ∧
    (c3res.1).endE = (c3res.1).startE +
      ((8 : Int).natAbs / 8 *
        ((List.range' 1 (1 : Int).toNat).map
          (fun i => ((fun _ => (2880 : Int)) i).toNat)).prod
        + (blockSize - 1)) / blockSize ∧
    (c3res.2).pos = (c3res.1).endE ∧
    (∃ c1, read_headers c2cursor = .ok ((c3res.1).hdrs, c1) ∧
      (c3res.1).startE = c1.pos) := by
  exact hdu_block_geometry c2cursor c3res.2 c3res.1 1 8 (fun _ => 2880)
    c2cardN c2cardB
    (by decide) (by decide) (by decide) (by decide) (by decide) (by decide)
    (Or.inl rfl)
    (by
      intro i h1 h2
      have h3 : (1 : Int).toNat = 1 := rfl
      rw [h3] at h2
      have hi : i = 1 := by omega
      subst hi
      exact ⟨c2card1, by decide, by decide⟩)
    (by
      intro i h1 h2
      show (1 : Int) ≤ 2880
      decide)
    (by decide)

/-- C2 counterexample: with `BITPIX = 8` and `NAXIS1 = NAXIS2 = 94907521`
the byte size is `94907521 ^ 2 = 9007437542365441`, an odd integer just
above `2 ^ 53`; the float64 multiplication of the source rounds it
half-to-even down to `9007437542365440`, so the constructed HDU spans
`3127582479988` data blocks while the claim's exact ceiling formula gives
`3127582479989`. -/
theorem hdu_block_geometry_counterexample :
    (HDU.construct cBigCursor).map (fun r => r.1.endE - r.1.startE) =
      .ok 3127582479988 ∧
    ceilBlocks (8 * (94907521 * 94907521)) = 3127582479989 := by
  constructor
  · decide
  · decide


end Fits
